import Mathlib

/-
  Verification of the breadboard graph-execution engine against its
  specification.

  The development shallowly embeds the TypeScript sources:
  - seeds/graph-runner/src/traversal/machine.ts  (TraversalMachine,
    TraversalMachineIterator, wire, computeMissingInputs)
  - seeds/graph-runner/src/traversal/result.ts   (MachineResult.skip)
  - seeds/breadboard/src/board.ts                (Board.handlersFromBoard,
    handler resolution in Board.run)
  - seeds/breadboard/src/core.ts                 (Core.passthrough)
  - seeds/breadboard/src/bubble.ts               (createErrorMessage,
    bubbleUpInputsIfNeeded, createBubbleHandler, InputSchemaReader)

  JavaScript records (plain objects used as string-keyed maps) are embedded
  as association lists in which a later binding shadows an earlier one:
  appending mimics both property assignment `o[k] = v` and object spread
  `{...a, ...b}`, and lookup returns the latest binding.  JavaScript
  `undefined` is represented by absence (`Option.none`); `null` is the
  explicit value `NodeValue.null`.  Asynchrony is erased: promises are
  modelled by their resolved values, and a rejected promise by
  `Except.error` carrying the thrown message.
-/

namespace Breadboard

/-- A JSON-style value (`NodeValue` in graph-runner's types.ts).  JavaScript
`undefined` is not a `NodeValue`; it is modelled as absence (`Option.none`). -/
inductive NodeValue where
  | null
  | bool (b : Bool)
  | num (n : Int)
  | str (s : String)
  | arr (elems : List NodeValue)
  | obj (fields : List (String × NodeValue))

/-- A JavaScript record of `NodeValue`s (`InputValues` / `OutputValues` /
`NodeConfiguration` in types.ts), embedded as an association list where a
later binding shadows an earlier one. -/
abbrev Obj := List (String × NodeValue)

/-- Property read `o[k]` on a JavaScript record: the latest binding for `k`,
or `none` (JavaScript `undefined`) when `k` is absent. -/
def recGet {α : Type} : List (String × α) → String → Option α
  | [], _ => none
  | p :: rest, k =>
    match recGet rest k with
    | some v => some v
    | none => if p.1 == k then some p.2 else none

/-- The JavaScript `k in o` test (equivalently, membership in
`Object.keys(o)`). -/
def recHas {α : Type} (o : List (String × α)) (k : String) : Bool :=
  o.any (fun p => p.1 == k)

/-- Property assignment `o[k] = v` on a JavaScript record. -/
def recSet {α : Type} (o : List (String × α)) (k : String) (v : α) :
    List (String × α) :=
  o ++ [(k, v)]

/-- The JavaScript loose test `v != null` (false exactly for `null` and
`undefined`; `undefined` is handled by the surrounding `Option`). -/
def isNotNull : NodeValue → Bool
  | NodeValue.null => false
  | _ => true

/-- Truthiness test for an optional string property: JavaScript `!s` is true
for `undefined` and for the empty string. -/
def strFalsy : Option String → Bool
  | none => true
  | some s => s == ""

/-- An edge of the graph (types.ts `Edge`).  The TypeScript fields `from` and
`in` are reserved words in Lean and appear here as `from_` and `in_`.  The
optional boolean fields `optional` and `constant` are embedded as `Bool`,
with absence identified with `false` (the code only ever tests their
truthiness). -/
structure Edge where
  from_ : String
  to_ : String
  in_ : Option String := none
  out : Option String := none
  optional : Bool := false
  constant : Bool := false

/-- A node of the graph (types.ts `NodeDescriptor`). -/
structure NodeDescriptor where
  id : String
  type : String
  configuration : Option Obj := none

/-- A graph (types.ts `GraphDescriptor`; metadata fields that the traversal
never reads are omitted). -/
structure GraphDescriptor where
  edges : List Edge
  nodes : List NodeDescriptor

/-- Modelled from the spec: graph-runner's traversal/representation.ts is not
among the sources.  Per spec section 4.1, the GraphIndex maps each node id to
its incoming edges ("heads"), in edge declaration order. -/
def heads (g : GraphDescriptor) (nodeId : String) : List Edge :=
  g.edges.filter (fun e => e.to_ == nodeId)

/-- Modelled from the spec: graph-runner's traversal/representation.ts is not
among the sources.  Per spec section 4.1, the GraphIndex maps each node id to
its outgoing edges ("tails"), in edge declaration order. -/
def tails (g : GraphDescriptor) (nodeId : String) : List Edge :=
  g.edges.filter (fun e => e.from_ == nodeId)

/-- Modelled from the spec: graph-runner's traversal/representation.ts is not
among the sources.  The GraphIndex `byId` table is a JavaScript `Map` built
by inserting every node under its id, so for a duplicated id the last node
wins. -/
def getNode (g : GraphDescriptor) (nodeId : String) : Option NodeDescriptor :=
  g.nodes.reverse.find? (fun n => n.id == nodeId)

/-- Modelled from the spec: graph-runner's traversal/representation.ts is not
among the sources.  Per spec section 3, entry nodes are the nodes with zero
incoming edges. -/
def entries (g : GraphDescriptor) : List String :=
  (g.nodes.filter (fun n => (heads g n.id).isEmpty)).map (fun n => n.id)

/-- The per-source available-outputs map handed to `wire` (types.ts
`EdgeMap`): source node id to that source's delivered outputs. -/
abbrev EdgeMap := List (String × Obj)

/-- One iteration of the `heads.forEach` loop of `TraversalMachine.wire`
(machine.ts): fold an incoming edge into the accumulated input record. -/
def wireOne (outputEdges : EdgeMap) (result : Obj) (head : Edge) : Obj :=
  let outputs := (recGet outputEdges head.from_).getD []
  match head.out with
  | none => result
  | some out =>
    if out == "" then result
    else if out == "*" then result ++ outputs
    else
      let output := recGet outputs out
      match head.in_ with
      | none => result
      | some input =>
        if input == "" then result
        else
          match output with
          | some v => if isNotNull v then recSet result input v else result
          | none => result

/-- `TraversalMachine.wire` (machine.ts): assemble the input record of a node
from its incoming edges and the available outputs of their sources. -/
def wire (headEdges : List Edge) (outputEdges : EdgeMap) : Obj :=
  headEdges.foldl (wireOne outputEdges) []

/-- Deduplication keeping the first occurrence of each element in order, as
performed by `[...new Set(xs)]` in `computeMissingInputs`: keep the head and
drop every later repetition of it. -/
def dedupFirst : List String → List String
  | [] => []
  | x :: xs => x :: (dedupFirst xs).filter (fun y => !(y == x))

/-- `TraversalMachine.computeMissingInputs` (machine.ts): the required input
names — distinct non-empty `in` names of non-optional incoming edges — that
are present neither among the input keys nor among the node's configuration
keys. -/
def computeMissingInputs (headEdges : List Edge) (inputs : Obj)
    (current : NodeDescriptor) : List String :=
  let requiredInputs : List String :=
    dedupFirst
      ((headEdges.filter (fun e => !(strFalsy e.in_) && !e.optional)).map
        (fun e => e.in_.getD ""))
  let inputsWithConfiguration : List String :=
    inputs.map Prod.fst ++ (current.configuration.getD []).map Prod.fst
  requiredInputs.filter (fun input => !(inputsWithConfiguration.contains input))

/-- Modelled from the spec: graph-runner's traversal/state.ts
(`MachineEdgeState`) is not among the sources.  Spec sections 3 and 4.2: the
EdgeStore keeps, per target node, the values delivered but not yet consumed
(`state`, keyed by source node) and, separately, the values delivered over
`constant` edges, which are retained forever (`constants`). -/
structure MachineEdgeState where
  state : List (String × EdgeMap)
  constants : List (String × EdgeMap)

/-- Modelled from the spec: record under each delivered-to node the outputs of
the delivering source, for every edge of `opportunities`. -/
def addToState (st : List (String × EdgeMap)) (opportunities : List Edge)
    (outputs : Obj) : List (String × EdgeMap) :=
  opportunities.foldl
    (fun st e => recSet st e.to_ (recSet ((recGet st e.to_).getD []) e.from_ outputs))
    st

/-- Modelled from the spec: graph-runner's traversal/state.ts is not among
the sources.  `update(node, opportunities, outputs)` first drops the values
the just-completed visit of `node` consumed (spec section 3: "a queued value
is delivered to exactly one consuming visit"), then delivers `outputs` along
each new opportunity edge, into the permanent `constants` table for
`constant` edges and into `state` otherwise. -/
def MachineEdgeState.update (s : MachineEdgeState) (node : String)
    (opportunities : List Edge) (outputs : Obj) : MachineEdgeState :=
  let cleared := s.state.filter (fun p => !(p.1 == node))
  let constantEdges := opportunities.filter (fun e => e.constant)
  let restEdges := opportunities.filter (fun e => !e.constant)
  { state := addToState cleared restEdges outputs
    constants := addToState s.constants constantEdges outputs }

/-- Modelled from the spec: graph-runner's traversal/state.ts is not among
the sources.  The outputs available to `node`, per source: the retained
constant deliveries overlaid by the pending one-shot deliveries (spec
section 4.2: the constant slot is read when present). -/
def MachineEdgeState.getAvailableOutputs (s : MachineEdgeState)
    (node : String) : EdgeMap :=
  ((recGet s.state node).getD []) ++ ((recGet s.constants node).getD [])

/-- The empty edge store a fresh traversal starts from. -/
def MachineEdgeState.empty : MachineEdgeState :=
  { state := [], constants := [] }

/-- A traversal result (`MachineResult` in graph-runner's
traversal/result.ts): the cursor produced by each step of the traversal
machine.  The promise plumbing (`outputsPromise`, `pendingOutputs`) is
erased; `outputs` holds the resolved output values once the visit's handler
has run, `none` before then (JavaScript `undefined`). -/
structure MachineResult where
  descriptor : NodeDescriptor
  inputs : Obj
  missingInputs : List String
  opportunities : List Edge
  newOpportunities : List Edge
  state : MachineEdgeState
  outputs : Option Obj := none

/-- The `skip` getter of `MachineResult` (traversal/result.ts): true when the
machine decided the node should be skipped rather than visited, namely when
`missingInputs` is non-empty. -/
def MachineResult.skip (r : MachineResult) : Bool :=
  r.missingInputs.length > 0

/-- Outcome of one call of `TraversalMachineIterator.next`: either the
iterator is exhausted (`{done: true}`) or it produced the next traversal
result. -/
inductive IterOutcome where
  | done
  | value (r : MachineResult)

/-- The first phase of `TraversalMachineIterator.next` (machine.ts): when the
previous visit was not skipped, append its `newOpportunities` to the
opportunity queue and fold its outputs into the edge store; a skipped visit
contributes nothing. -/
def stepCurrent (current : MachineResult) : MachineResult :=
  if !current.skip then
    { current with
      opportunities := current.opportunities ++ current.newOpportunities
      state := current.state.update current.descriptor.id
        current.newOpportunities (current.outputs.getD []) }
  else current

/-- `TraversalMachineIterator.next` (machine.ts): consume the previous
visit's outputs, then pop the earliest opportunity, wire the target's inputs
from all its incoming edges, compute the missing required inputs, merge the
node's configuration under the wired inputs, and produce the next traversal
result; an unknown target id is a thrown error, an empty opportunity queue
ends the iteration. -/
def next (graph : GraphDescriptor) (current : MachineResult) :
    Except String IterOutcome :=
  let current := stepCurrent current
  match current.opportunities with
  | [] => Except.ok IterOutcome.done
  | opportunity :: rest =>
    let toNode := opportunity.to_
    match getNode graph toNode with
    | none =>
      Except.error ("No node found for id \"" ++ toNode ++ "\"")
    | some currentDescriptor =>
      let incomingEdges := heads graph toNode
      let inputs := wire incomingEdges (current.state.getAvailableOutputs toNode)
      let missingInputs := computeMissingInputs incomingEdges inputs currentDescriptor
      let newOpportunities := tails graph toNode
      let inputsWithConfiguration := (currentDescriptor.configuration.getD []) ++ inputs
      Except.ok (IterOutcome.value
        { descriptor := currentDescriptor
          inputs := inputsWithConfiguration
          missingInputs := missingInputs
          opportunities := rest
          newOpportunities := newOpportunities
          state := current.state
          outputs := none })

/-- `TraversalMachine.start` (machine.ts): resume from a previous result when
one is supplied; otherwise fail if the graph has no entry node, and else seed
the iterator with a synthetic result whose opportunities are fake edges from
the virtual node `$entry` to each entry node. -/
def start (graph : GraphDescriptor) (previousResult : Option MachineResult) :
    Except String MachineResult :=
  match previousResult with
  | some r => Except.ok r
  | none =>
    if (entries graph).length == 0 then
      Except.error "No entry node found in graph."
    else
      Except.ok
        { descriptor := { id := "$empty", type := "$empty" }
          inputs := []
          missingInputs := []
          opportunities :=
            (entries graph).map (fun entry => { from_ := "$entry", to_ := entry })
          newOpportunities := []
          state := MachineEdgeState.empty
          outputs := none }

/-- A kit's handler table (`NodeHandlers`): node type to handler.  The
handler payload type is a parameter so that the composition law can be
stated for any handler representation. -/
abbrev HandlerMap (α : Type) := List (String × α)

/-- `Board.handlersFromBoard` (board.ts): compose the always-present built-in
`Core` kit with the board's kits by
`kits.reduce((handlers, kit) => ({...handlers, ...kit.handlers}), {})`,
where `kits = [core, ...board.kits]`.  In the association-list embedding the
object spread is concatenation, a later binding shadowing an earlier one. -/
def handlersFromBoard {α : Type} (coreHandlers : HandlerMap α)
    (boardKits : List (HandlerMap α)) : HandlerMap α :=
  (coreHandlers :: boardKits).foldl (fun handlers kit => handlers ++ kit) []

/-- Handler resolution in `Board.run` (board.ts):
`const handler = handlers[descriptor.type]`, with a missing entry a thrown
`No handler for node type` error. -/
def resolveHandler {α : Type} (handlers : HandlerMap α) (type : String) :
    Except String α :=
  match recGet handlers type with
  | some handler => Except.ok handler
  | none => Except.error ("No handler for node type \"" ++ type ++ "\"")

/-- Resolution order claimed by the spec ("multiple registries compose by
priority order, first match wins", with the built-in registry first): scan
the registries in the order given and return the first one that knows the
type.  This definition follows the spec's words, for comparison with
`handlersFromBoard`, which follows the code. -/
def specFirstMatchHandler {α : Type} (kits : List (HandlerMap α))
    (type : String) : Option α :=
  match kits with
  | [] => none
  | kit :: rest =>
    match recGet kit type with
    | some handler => some handler
    | none => specFirstMatchHandler rest type

/-- Resolution order the code actually implements: the latest registry in the
composition order that knows the type wins. -/
def lastMatchHandler {α : Type} (kits : List (HandlerMap α))
    (type : String) : Option α :=
  match kits with
  | [] => none
  | kit :: rest =>
    match lastMatchHandler rest type with
    | some handler => some handler
    | none => recGet kit type

/-- `Core.passthrough` (core.ts): the built-in `passthrough` handler returns
its inputs unchanged. -/
def Core.passthrough (inputs : Obj) : Obj :=
  inputs

/-- The board metadata `createErrorMessage` consults (`context.board`). -/
structure BoardInfo where
  title : Option String := none
  url : Option String := none

/-- The slice of `NodeHandlerContext` that the input-bubbling code reads: the
board being run (for diagnostics) and the optional interactive input
resolver `requestInput(name, schema)`.  The resolver's `undefined` result (a
refusal) is `none`; a schema is an ordinary JSON value. -/
structure NodeHandlerContext where
  board : Option BoardInfo := none
  requestInput : Option (String → NodeValue → Option NodeValue) := none

/-- `createErrorMessage` (core.ts bubbling section): the text of the
missing-input error, naming the input and, when the board has a non-empty
title or url, the board. -/
def createErrorMessage (inputName : String) (context : NodeHandlerContext)
    (required : Bool) : String :=
  let boardTitle : Option String :=
    match context.board with
    | none => none
    | some b =>
      match b.title with
      | some t => some t
      | none => b.url
  let requiredText := if required then "required " else ""
  let suffix :=
    match boardTitle with
    | some t => if t == "" then "." else " for board \"" ++ t ++ "\"."
    | none => "."
  "Missing " ++ requiredText ++ "input \"" ++ inputName ++ "\"" ++ suffix

/-- Read `schema.default` off a JSON-encoded schema value (absent on
non-object values). -/
def schemaDefault (schema : NodeValue) : Option NodeValue :=
  match schema with
  | NodeValue.obj fields => recGet fields "default"
  | _ => none

/-- Read `schema.properties` off a JSON-encoded schema value; only an
object-valued `properties` yields entries (the code's `!schema.properties`
guard rejects an absent one, and a schema carries properties as an object). -/
def schemaProperties (schema : NodeValue) : Option (List (String × NodeValue)) :=
  match schema with
  | NodeValue.obj fields =>
    match recGet fields "properties" with
    | some (NodeValue.obj props) => some props
    | _ => none
  | _ => none

/-- The `schema.required?.includes(name) ?? false` test of
`InputSchemaReader.read`: whether the schema's `required` array (absent
meaning empty) contains the string `name`. -/
def schemaRequires (schema : NodeValue) (name : String) : Bool :=
  let requiredList : List NodeValue :=
    match schema with
    | NodeValue.obj fields =>
      match recGet fields "required" with
      | some (NodeValue.arr xs) => xs
      | _ => []
    | _ => []
  requiredList.any (fun v =>
    match v with
    | NodeValue.str s => s == name
    | _ => false)

/-- `createBubbleHandler` (core.ts bubbling section): the per-input handler
used when bubbling.  A required input is promoted to a thrown error outright;
otherwise the interactive resolver is consulted, its refusal falling back to
the schema's default and, failing that, to a thrown error naming the input. -/
def createBubbleHandler (context : NodeHandlerContext) (name : String)
    (schema : NodeValue) (required : Bool) : Except String NodeValue :=
  if required then
    Except.error (createErrorMessage name context required)
  else
    let value :=
      match context.requestInput with
      | some f => f name schema
      | none => none
    match value with
    | none =>
      match schemaDefault schema with
      | some d => Except.ok d
      | none => Except.error (createErrorMessage name context required)
    | some v => Except.ok v

/-- `InputSchemaReader.read` (core.ts bubbling section): walk the entries of
`inputs.schema.properties` in order; a name already present in the current
outputs is kept, every other name is supplied by the handler (whose thrown
error rejects the whole read); the supplied values are merged over the
current outputs. -/
def InputSchemaReader.read (currentOutputs : Obj) (inputs : Obj)
    (handler : String → NodeValue → Bool → Except String NodeValue) :
    Except String Obj :=
  if !(recHas inputs "schema") then Except.ok currentOutputs
  else
    let schema := (recGet inputs "schema").getD NodeValue.null
    match schemaProperties schema with
    | none => Except.ok currentOutputs
    | some entries => do
      let newOutputs ← entries.foldlM
        (fun (acc : Obj) entry => do
          let name := entry.1
          let property := entry.2
          match recGet currentOutputs name with
          | some v => pure (recSet acc name v)
          | none =>
            let required := schemaRequires schema name
            let value ← handler name property required
            pure (recSet acc name value))
        []
      pure (currentOutputs ++ newOutputs)

/-- `bubbleUpInputsIfNeeded` (core.ts bubbling section): when the context has
no way to bubble up inputs it returns at once, leaving the visit's outputs
untouched and enforcing nothing; otherwise it replaces the outputs with the
result of reading the input schema through the bubble handler.  The returned
value is the visit's new `outputsPromise`: `Except.error` is the rejected
promise, and the inner `Option` keeps an absent (`undefined`) promise. -/
def bubbleUpInputsIfNeeded (context : NodeHandlerContext) (inputs : Obj)
    (outputsPromise : Option Obj) : Except String (Option Obj) :=
  match context.requestInput with
  | none => Except.ok outputsPromise
  | some _ =>
    (InputSchemaReader.read (outputsPromise.getD []) inputs
        (createBubbleHandler context)).map some

/-- An input record for an `input`-boundary visit that declares exactly one
schema property `name`, marked required or not: the shape
`{schema: {properties: {name: property}, required: [name]?}}` that
`InputSchemaReader` walks. -/
def singlePropertySchemaInputs (name : String) (property : NodeValue)
    (required : Bool) : Obj :=
  [("schema", NodeValue.obj
    ([("properties", NodeValue.obj [(name, property)])] ++
      (if required then [("required", NodeValue.arr [NodeValue.str name])]
       else [])))]

/-
  Concrete instances used to exercise the traversal stepper.
-/

/-- An edge from node `a` to node `b` carrying port `x`. -/
def witnessEdgeAB : Edge :=
  { from_ := "a", to_ := "b", in_ := some "x", out := some "x" }

/-- The node `b` of the two-node witness graph, with configuration
`{x: 9, y: 7}` that a wired `x` should override. -/
def witnessNodeB : NodeDescriptor where
  id := "b"
  type := "noop"
  configuration := some [("x", NodeValue.num 9), ("y", NodeValue.num 7)]

/-- A two-node graph `a → b`. -/
def witnessGraph : GraphDescriptor :=
  { edges := [witnessEdgeAB]
    nodes := [{ id := "a", type := "noop" }, witnessNodeB] }

/-- The cursor after a non-skipped visit of `a` that output `{x: 3}`. -/
def witnessPrev : MachineResult :=
  { descriptor := { id := "a", type := "noop" }
    inputs := []
    missingInputs := []
    opportunities := []
    newOpportunities := [witnessEdgeAB]
    state := MachineEdgeState.empty
    outputs := some [("x", NodeValue.num 3)] }

/-- The traversal result the stepper produces from `witnessPrev`: a visit of
`b` whose inputs are the configuration overridden by the wired `x`. -/
def witnessNext : MachineResult :=
  { descriptor := witnessNodeB
    inputs := [("x", NodeValue.num 9), ("y", NodeValue.num 7), ("x", NodeValue.num 3)]
    missingInputs := []
    opportunities := []
    newOpportunities := []
    state := { state := [("b", [("a", [("x", NodeValue.num 3)])])], constants := [] }
    outputs := none }

/-- A skipped cursor: a visit of `a` whose required input `m` is missing,
holding a non-empty edge store and a queued opportunity towards `b`. -/
def witnessSkipped : MachineResult :=
  { descriptor := { id := "a", type := "noop" }
    inputs := []
    missingInputs := ["m"]
    opportunities := [witnessEdgeAB]
    newOpportunities := [witnessEdgeAB]
    state := { state := [("q", [("z", [("k", NodeValue.num 1)])])], constants := [] }
    outputs := none }

/-- The traversal result the stepper produces from `witnessSkipped`: the
skipped visit's outputs and new opportunities are discarded and the edge
store is carried over unchanged. -/
def witnessSkippedNext : MachineResult :=
  { descriptor := witnessNodeB
    inputs := [("x", NodeValue.num 9), ("y", NodeValue.num 7)]
    missingInputs := []
    opportunities := []
    newOpportunities := []
    state := { state := [("q", [("z", [("k", NodeValue.num 1)])])], constants := [] }
    outputs := none }

/-
  General lemmas about the JavaScript-record embedding.
-/

theorem recGet_append {α : Type} (a b : List (String × α)) (k : String) :
    recGet (a ++ b) k =
      match recGet b k with
      | some v => some v
      | none => recGet a k := by
  induction a with
  | nil =>
    cases h : recGet b k <;> simp [recGet, h]
  | cons p a ih =>
    cases h : recGet b k <;> cases h' : recGet a k <;>
      simp [recGet, ih, h, h']

theorem recHas_eq_isSome_recGet {α : Type} (o : List (String × α)) (k : String) :
    recHas o k = (recGet o k).isSome := by
  induction o with
  | nil => rfl
  | cons p o ih =>
    have hcons : recHas (p :: o) k = ((p.1 == k) || recHas o k) := rfl
    rw [hcons, ih]
    cases h : recGet o k with
    | some v => simp [recGet, h]
    | none => cases hk : (p.1 == k) <;> simp [recGet, h, hk]

theorem recGet_singleton_self {α : Type} (k : String) (v : α) :
    recGet [(k, v)] k = some v := by
  simp [recGet]

theorem mem_dedupFirst (a : String) (l : List String) :
    a ∈ dedupFirst l ↔ a ∈ l := by
  induction l with
  | nil => simp [dedupFirst]
  | cons x xs ih =>
    simp only [dedupFirst, List.mem_cons, List.mem_filter, ih]
    by_cases hax : a = x
    · simp [hax]
    · simp [hax]

theorem recGet_eq_none_of_not_recHas {α : Type} {o : List (String × α)}
    {k : String} (h : recHas o k = false) : recGet o k = none := by
  have := recHas_eq_isSome_recGet o k
  rw [h] at this
  exact Option.not_isSome_iff_eq_none.mp (by rw [← this]; simp)

/-
  Decomposition lemmas for `wire`: each incoming edge contributes a fixed
  record of bindings, appended in edge order.
-/

theorem wireOne_eq_append (outs : EdgeMap) (r : Obj) (e : Edge) :
    wireOne outs r e = r ++ wireOne outs [] e := by
  unfold wireOne
  cases ho : e.out with
  | none => simp
  | some o =>
    dsimp only
    by_cases h1 : (o == "") = true
    · simp [h1]
    · by_cases h2 : (o == "*") = true
      · simp [h1, h2]
      · cases hi : e.in_ with
        | none => simp [h1, h2]
        | some input =>
          by_cases h3 : (input == "") = true
          · simp [h1, h2, h3]
          · cases hv : recGet ((recGet outs e.from_).getD []) o with
            | none => simp [h1, h2, h3, hv]
            | some v =>
              cases hnn : isNotNull v <;> simp [h1, h2, h3, hv, hnn, recSet]

theorem foldl_wireOne (outs : EdgeMap) (l : List Edge) (a : Obj) :
    l.foldl (wireOne outs) a = a ++ wire l outs := by
  induction l generalizing a with
  | nil => simp [wire]
  | cons e l ih =>
    simp only [List.foldl_cons, wire]
    rw [ih (wireOne outs a e), ih (wireOne outs [] e)]
    rw [wireOne_eq_append outs a e, List.append_assoc]

theorem wire_cons (outs : EdgeMap) (e : Edge) (l : List Edge) :
    wire (e :: l) outs = wireOne outs [] e ++ wire l outs := by
  simp only [wire, List.foldl_cons]
  exact foldl_wireOne outs l (wireOne outs [] e)

theorem wire_append (l1 l2 : List Edge) (outs : EdgeMap) :
    wire (l1 ++ l2) outs = wire l1 outs ++ wire l2 outs := by
  simp only [wire, List.foldl_append]
  exact foldl_wireOne outs l2 (l1.foldl (wireOne outs) [])

theorem recGet_wire_eq_none (outs : EdgeMap) (l : List Edge) (n : String)
    (h : ∀ e ∈ l, recHas (wireOne outs [] e) n = false) :
    recGet (wire l outs) n = none := by
  induction l with
  | nil => rfl
  | cons e l ih =>
    rw [wire_cons, recGet_append]
    rw [ih (fun e' he' => h e' (List.mem_cons_of_mem e he'))]
    exact recGet_eq_none_of_not_recHas (h e (List.mem_cons_self e l))

theorem recGet_append_of_right {α : Type} {b : List (String × α)} {k : String}
    {v : α} (a : List (String × α)) (h : recGet b k = some v) :
    recGet (a ++ b) k = some v := by
  rw [recGet_append, h]

theorem getNode_id (g : GraphDescriptor) (i : String) (n : NodeDescriptor)
    (h : getNode g i = some n) : n.id = i := by
  unfold getNode at h
  have := List.find?_some h
  simpa using this

/-
  Claim theorems.
-/

/-- C6: for every traversal result, `skip` is true if and only if its list of
missing required input names is non-empty. -/
theorem machineResult_skip_iff (r : MachineResult) :
    r.skip = true ↔ r.missingInputs ≠ [] := by
  simp [MachineResult.skip, List.length_pos]

/-- C9: the built-in `passthrough` handler is the identity function: for
every input mapping, a visit of a passthrough node produces outputs equal to
its inputs. -/
theorem core_passthrough_identity (inputs : Obj) :
    Core.passthrough inputs = inputs := rfl

theorem keys_contains_eq_recHas {α : Type} (o : List (String × α)) (n : String) :
    (o.map Prod.fst).contains n = recHas o n := by
  induction o with
  | nil => rfl
  | cons p o ih =>
    have h2 : recHas (p :: o) n = ((p.1 == n) || recHas o n) := rfl
    simp only [List.map_cons, List.contains_cons, h2, ih, Bool.beq_comm]

theorem keys_append_contains {α : Type} (a b : List (String × α)) (n : String) :
    ((a.map Prod.fst ++ b.map Prod.fst).contains n) = (recHas a n || recHas b n) := by
  rw [← List.map_append, keys_contains_eq_recHas]
  simp [recHas, List.any_append]

theorem mem_computeMissingInputs (headEdges : List Edge) (inputs : Obj)
    (current : NodeDescriptor) (n : String) :
    n ∈ computeMissingInputs headEdges inputs current ↔
      ((∃ e ∈ headEdges, e.in_ = some n ∧ e.optional = false) ∧ n ≠ "" ∧
        recHas inputs n = false ∧
        recHas (current.configuration.getD []) n = false) := by
  unfold computeMissingInputs
  simp only [List.mem_filter, mem_dedupFirst, List.mem_map, List.mem_filter,
    Bool.and_eq_true, Bool.not_eq_true', keys_append_contains,
    Bool.or_eq_false_iff]
  constructor
  · rintro ⟨⟨e, ⟨he, hf, ho⟩, hname⟩, havail⟩
    cases hin : e.in_ with
    | none => rw [hin] at hf; simp [strFalsy] at hf
    | some s =>
      rw [hin] at hf hname
      simp only [strFalsy] at hf
      simp only [Option.getD_some] at hname
      subst hname
      exact ⟨⟨e, he, hin, ho⟩, by simpa using hf, havail.1, havail.2⟩
  · rintro ⟨⟨e, he, hin, ho⟩, hne, hi, hc⟩
    refine ⟨⟨e, ⟨he, ?_, ho⟩, ?_⟩, hi, hc⟩
    · rw [hin]; simpa [strFalsy] using hne
    · rw [hin]; rfl

/-- C5: a name is among the computed missing required inputs exactly when it
is a non-empty `in` name of some non-optional incoming edge and is present
neither among the collected inputs nor among the node's configuration keys;
in particular a required name supplied via node configuration is never
reported missing. -/
theorem computeMissingInputs_mem_iff (headEdges : List Edge) (inputs : Obj)
    (current : NodeDescriptor) (n : String) :
    (n ∈ computeMissingInputs headEdges inputs current ↔
      ((∃ e ∈ headEdges, e.in_ = some n ∧ e.optional = false) ∧ n ≠ "" ∧
        recHas inputs n = false ∧
        recHas (current.configuration.getD []) n = false)) ∧
    (recHas (current.configuration.getD []) n = true →
      n ∉ computeMissingInputs headEdges inputs current) := by
  refine ⟨mem_computeMissingInputs headEdges inputs current n, fun hc hmem => ?_⟩
  rw [mem_computeMissingInputs headEdges inputs current n] at hmem
  rw [hmem.2.2.2] at hc
  exact Bool.false_ne_true hc

/-- C1 counterexample: when the built-in registry and an external kit both
define `passthrough`, the handler `Board.run` resolves is the external kit's
(the spread in `handlersFromBoard` lets later kits overwrite earlier ones),
not the first match in `[core, ...board.kits]` order as the claim states:
on the input `{x: 1}` the resolved handler returns `{}` while the built-in
first-match handler returns `{x: 1}`. -/
theorem handlersFromBoard_first_match_false :
    (resolveHandler
        (handlersFromBoard [("passthrough", Core.passthrough)]
          [[("passthrough", fun (_ : Obj) => ([] : Obj))]])
        "passthrough").map (fun h => h [("x", NodeValue.num 1)]) =
      Except.ok []
    ∧ (specFirstMatchHandler
          ([("passthrough", Core.passthrough)] ::
            [[("passthrough", fun (_ : Obj) => ([] : Obj))]])
          "passthrough").map (fun h => h [("x", NodeValue.num 1)]) =
        some [("x", NodeValue.num 1)]
    ∧ ([] : Obj) ≠ [("x", NodeValue.num 1)] := by
  refine ⟨?_, ?_, ?_⟩
  · rfl
  · rfl
  · exact (List.cons_ne_nil _ _).symm

/-- C1 amended: composed registries resolve a node type to the handler of
the latest registry in `[core, ...board.kits]` order that defines it — the
last match wins, so the always-present built-in registry has the lowest
priority and externally supplied kits override it. -/
theorem handlersFromBoard_last_match {α : Type} (coreHandlers : HandlerMap α)
    (boardKits : List (HandlerMap α)) (type : String) :
    recGet (handlersFromBoard coreHandlers boardKits) type =
      lastMatchHandler (coreHandlers :: boardKits) type := by
  suffices h : ∀ (kits : List (HandlerMap α)) (acc : HandlerMap α),
      recGet (kits.foldl (fun handlers kit => handlers ++ kit) acc) type =
        match lastMatchHandler kits type with
        | some hh => some hh
        | none => recGet acc type by
    have h2 := h (coreHandlers :: boardKits) []
    rw [handlersFromBoard, h2]
    cases lastMatchHandler (coreHandlers :: boardKits) type <;> simp [recGet]
  intro kits
  induction kits with
  | nil => intro acc; simp [lastMatchHandler]
  | cons kit rest ih =>
    intro acc
    simp only [List.foldl_cons, lastMatchHandler]
    rw [ih (acc ++ kit), recGet_append]
    cases lastMatchHandler rest type <;> cases recGet kit type <;> simp

/-- C4: when several incoming edges deliver a value to the same input name,
the assembled input holds the value delivered by the edge appearing latest
in edge declaration order: an edge that delivers `v` to name `n` determines
the wired value of `n` whenever no later edge delivers anything to `n`. -/
theorem wire_later_edge_wins (outs : EdgeMap) (pre post : List Edge)
    (e : Edge) (o n : String) (v : NodeValue)
    (hout : e.out = some o) (ho1 : o ≠ "") (ho2 : o ≠ "*")
    (hin : e.in_ = some n) (hn : n ≠ "")
    (hv : recGet ((recGet outs e.from_).getD []) o = some v)
    (hnn : isNotNull v = true)
    (hpost : ∀ e' ∈ post, recHas (wireOne outs [] e') n = false) :
    recGet (wire (pre ++ e :: post) outs) n = some v := by
  have hcontrib : wireOne outs [] e = [(n, v)] := by
    unfold wireOne
    rw [hout, hin]
    simp [ho1, ho2, hn, hv, hnn, recSet]
  have hmain : recGet (wire (e :: post) outs) n = some v := by
    rw [wire_cons, recGet_append, recGet_wire_eq_none outs post n hpost,
      hcontrib]
    simp [recGet]
  rw [wire_append, recGet_append, hmain]

/-- C4 witness: two edges into node `t` both feed input `x`; the edge
declared later (reading port `q` of source `s2`, which carries `1`) wins
over the earlier one (reading port `p` of `s1`, which carries `0`). -/
theorem wire_later_edge_wins_witness :
    isNotNull (NodeValue.num 1) = true
    ∧ recGet
        (wire
          [{ from_ := "s1", to_ := "t", in_ := some "x", out := some "p" },
           { from_ := "s2", to_ := "t", in_ := some "x", out := some "q" }]
          [("s1", [("p", NodeValue.num 0)]), ("s2", [("q", NodeValue.num 1)])])
        "x" = some (NodeValue.num 1) := by
  refine ⟨rfl, ?_⟩
  exact wire_later_edge_wins
    [("s1", [("p", NodeValue.num 0)]), ("s2", [("q", NodeValue.num 1)])]
    [{ from_ := "s1", to_ := "t", in_ := some "x", out := some "p" }] []
    { from_ := "s2", to_ := "t", in_ := some "x", out := some "q" }
    "q" "x" (NodeValue.num 1) rfl (by decide) (by decide) rfl (by decide)
    rfl rfl (fun e' he' => absurd he' (List.not_mem_nil e'))

/-- C3: every visit the stepper produces hands the node its static
configuration merged with the wired inputs — the inputs equal
`{...configuration, ...wired}`, and a wired value overrides a configuration
value of the same name. -/
theorem next_inputs_merge_configuration (g : GraphDescriptor)
    (r r' : MachineResult)
    (h : next g r = Except.ok (IterOutcome.value r')) :
    r'.inputs = (r'.descriptor.configuration.getD []) ++
        wire (heads g r'.descriptor.id)
          (r'.state.getAvailableOutputs r'.descriptor.id)
    ∧ ∀ (k : String) (v : NodeValue),
        recGet (wire (heads g r'.descriptor.id)
          (r'.state.getAvailableOutputs r'.descriptor.id)) k = some v →
        recGet r'.inputs k = some v := by
  simp only [next] at h
  cases hops : (stepCurrent r).opportunities with
  | nil => rw [hops] at h; exact absurd h (by simp)
  | cons opportunity rest =>
    rw [hops] at h
    dsimp only at h
    cases hg : getNode g opportunity.to_ with
    | none => rw [hg] at h; exact absurd h (by simp)
    | some d =>
      rw [hg] at h
      have hid := getNode_id g opportunity.to_ d hg
      injection h with h
      injection h with h
      subst h
      dsimp only
      rw [hid]
      exact ⟨rfl, fun k v hkv => recGet_append_of_right _ hkv⟩

/-- C7: a step taken after a skipped visit leaves the per-edge value store
completely unchanged: outputs are folded into the store only for a
non-skipped previous visit, so a skipped visit never leaves a half-done
delivery. -/
theorem next_after_skip_preserves_state (g : GraphDescriptor)
    (r r' : MachineResult) (hskip : r.skip = true)
    (h : next g r = Except.ok (IterOutcome.value r')) :
    r'.state = r.state := by
  have hsc : stepCurrent r = r := by
    unfold stepCurrent
    rw [hskip]
    simp
  simp only [next, hsc] at h
  cases hops : r.opportunities with
  | nil => rw [hops] at h; exact absurd h (by simp)
  | cons opportunity rest =>
    rw [hops] at h
    dsimp only at h
    cases hg : getNode g opportunity.to_ with
    | none => rw [hg] at h; exact absurd h (by simp)
    | some d =>
      rw [hg] at h
      injection h with h
      injection h with h
      subst h
      rfl

/-- C8: for a graph with zero entry nodes — every node has at least one
incoming edge — starting the traversal fails immediately with the
no-entry-node configuration error, so no visit is ever produced. -/
theorem start_fails_without_entry (g : GraphDescriptor)
    (h : ∀ n ∈ g.nodes, (heads g n.id).isEmpty = false) :
    start g none = Except.error "No entry node found in graph." := by
  have he : entries g = [] := by
    unfold entries
    rw [List.filter_eq_nil_iff.mpr (fun n hn => by simp [h n hn])]
    rfl
  simp [start, he]

/-- C8 witness: a one-node graph whose only node carries a self-loop has no
entry node, and starting it reports the configuration error. -/
theorem start_fails_without_entry_witness :
    (heads
        { edges := [{ from_ := "a", to_ := "a", in_ := some "x", out := some "x" }],
          nodes := [{ id := "a", type := "noop" }] } "a").isEmpty = false
    ∧ start
        { edges := [{ from_ := "a", to_ := "a", in_ := some "x", out := some "x" }],
          nodes := [{ id := "a", type := "noop" }] } none =
      Except.error "No entry node found in graph." := by
  refine ⟨rfl, ?_⟩
  exact start_fails_without_entry
    { edges := [{ from_ := "a", to_ := "a", in_ := some "x", out := some "x" }],
      nodes := [{ id := "a", type := "noop" }] }
    (fun n hn => by
      rw [List.mem_singleton] at hn
      subst hn
      rfl)

/-- C10: an incoming edge with named ports whose delivered value is `null`
(or absent, JavaScript `undefined`) contributes nothing to the wiring — with
that edge as the node's only incoming edge the wired inputs are empty — so
its non-optional `in` name, unless supplied by configuration, is still
missing and forces the visit to be skipped. -/
theorem wire_null_output_counts_missing (outs : EdgeMap) (e : Edge)
    (o n : String) (current : NodeDescriptor)
    (hout : e.out = some o) (ho1 : o ≠ "") (ho2 : o ≠ "*")
    (hin : e.in_ = some n) (hn : n ≠ "") (hopt : e.optional = false)
    (hv : recGet ((recGet outs e.from_).getD []) o = none ∨
          recGet ((recGet outs e.from_).getD []) o = some NodeValue.null)
    (hcfg : recHas (current.configuration.getD []) n = false) :
    wire [e] outs = []
    ∧ n ∈ computeMissingInputs [e] (wire [e] outs) current
    ∧ MachineResult.skip
        { descriptor := current
          inputs := wire [e] outs
          missingInputs := computeMissingInputs [e] (wire [e] outs) current
          opportunities := []
          newOpportunities := []
          state := MachineEdgeState.empty
          outputs := none } = true := by
  have hwire : wire [e] outs = [] := by
    have hone : wireOne outs [] e = [] := by
      unfold wireOne
      rw [hout, hin]
      rcases hv with hv | hv <;>
        simp [ho1, ho2, hn, hv, isNotNull]
    rw [wire_cons, hone]
    rfl
  have hmem : n ∈ computeMissingInputs [e] (wire [e] outs) current := by
    rw [mem_computeMissingInputs]
    exact ⟨⟨e, List.mem_singleton_self e, hin, hopt⟩, hn, by rw [hwire]; rfl, hcfg⟩
  refine ⟨hwire, hmem, ?_⟩
  simp only [MachineResult.skip]
  simp [List.length_pos]
  exact List.ne_nil_of_mem hmem

/-- C10 witness: node `t`'s only incoming edge reads port `p` of source `s`,
which delivered `null`; the wired inputs are empty, `x` is reported missing,
and the visit is skipped. -/
theorem wire_null_output_counts_missing_witness :
    recGet
        ((recGet [("s", [("p", NodeValue.null)])] "s").getD []) "p" =
      some NodeValue.null
    ∧ wire [{ from_ := "s", to_ := "t", in_ := some "x", out := some "p" }]
        [("s", [("p", NodeValue.null)])] = []
    ∧ "x" ∈ computeMissingInputs
        [{ from_ := "s", to_ := "t", in_ := some "x", out := some "p" }]
        (wire [{ from_ := "s", to_ := "t", in_ := some "x", out := some "p" }]
          [("s", [("p", NodeValue.null)])])
        { id := "t", type := "noop" } := by
  refine ⟨rfl, ?_⟩
  have h := wire_null_output_counts_missing
    [("s", [("p", NodeValue.null)])]
    { from_ := "s", to_ := "t", in_ := some "x", out := some "p" }
    "p" "x" { id := "t", type := "noop" }
    rfl (by decide) (by decide) rfl (by decide) rfl
    (Or.inr rfl) rfl
  exact ⟨h.1, h.2.1⟩

/-- C3 witness: stepping past a visit of `a` that output `{x: 3}` produces a
visit of `b` whose inputs are `b`'s configuration `{x: 9, y: 7}` overlaid by
the wired inputs, and reading `x` yields the wired `3`, not the configured
`9`. -/
theorem next_inputs_merge_configuration_witness :
    witnessNext.inputs =
      (witnessNext.descriptor.configuration.getD []) ++
        wire (heads witnessGraph witnessNext.descriptor.id)
          (witnessNext.state.getAvailableOutputs witnessNext.descriptor.id)
    ∧ recGet witnessNext.inputs "x" = some (NodeValue.num 3) := by
  have h := next_inputs_merge_configuration witnessGraph witnessPrev
    witnessNext rfl
  exact ⟨h.1, h.2 "x" (NodeValue.num 3) rfl⟩

/-- C5 witness: node `t` has a non-optional incoming wire into `x` that has
delivered nothing, yet because its configuration supplies `x` the name is
not reported missing. -/
theorem computeMissingInputs_mem_iff_witness :
    recHas ([("x", NodeValue.num 5)] : Obj) "x" = true
    ∧ "x" ∉ computeMissingInputs
        [{ from_ := "s", to_ := "t", in_ := some "x", out := some "p" }] []
        { id := "t", type := "noop",
          configuration := some [("x", NodeValue.num 5)] } := by
  refine ⟨rfl, ?_⟩
  exact (computeMissingInputs_mem_iff
    [{ from_ := "s", to_ := "t", in_ := some "x", out := some "p" }] []
    { id := "t", type := "noop",
      configuration := some [("x", NodeValue.num 5)] } "x").2 rfl

/-- C7 witness: stepping past the skipped visit `witnessSkipped` leaves the
edge store untouched: the produced visit of `b` carries the same store. -/
theorem next_after_skip_preserves_state_witness :
    witnessSkipped.skip = true
    ∧ witnessSkippedNext.state = witnessSkipped.state := by
  refine ⟨rfl, ?_⟩
  exact next_after_skip_preserves_state witnessGraph witnessSkipped
    witnessSkippedNext rfl rfl

theorem read_single_missing (currentOutputs : Obj) (name : String)
    (property : NodeValue) (req : Bool)
    (handler : String → NodeValue → Bool → Except String NodeValue)
    (hmiss : recGet currentOutputs name = none) :
    InputSchemaReader.read currentOutputs
        (singlePropertySchemaInputs name property req) handler =
      (handler name property req).bind
        (fun v => Except.ok (currentOutputs ++ [(name, v)])) := by
  have hget : recGet (singlePropertySchemaInputs name property req) "schema" =
      some (NodeValue.obj
        ([("properties", NodeValue.obj [(name, property)])] ++
          (if req then [("required", NodeValue.arr [NodeValue.str name])]
           else []))) := rfl
  have hprops : schemaProperties
      ((recGet (singlePropertySchemaInputs name property req) "schema").getD
        NodeValue.null) = some [(name, property)] := by
    rw [hget]
    cases req <;> rfl
  have hreq : schemaRequires
      ((recGet (singlePropertySchemaInputs name property req) "schema").getD
        NodeValue.null) name = req := by
    rw [hget]
    cases req
    · rfl
    · simp [schemaRequires, recGet]
  unfold InputSchemaReader.read
  rw [show recHas (singlePropertySchemaInputs name property req) "schema" = true
    from rfl]
  simp only [Bool.not_true, Bool.false_eq_true, if_false, hprops,
    List.foldlM_cons, List.foldlM_nil, hmiss, hreq]
  cases hh : handler name property req <;>
    simp [hh, Except.bind, recSet, Except.map]

/-- C2 counterexample: an `input` visit whose schema marks `text` as a
required input, with no value available for it, but a context exposing no
interactive input resolver: `bubbleUpInputsIfNeeded` returns successfully
with the outputs untouched instead of failing with a missing-input error —
the run completes silently. -/
theorem bubble_no_resolver_silent :
    schemaRequires
        ((recGet (singlePropertySchemaInputs "text" (NodeValue.obj []) true)
            "schema").getD NodeValue.null) "text" = true
    ∧ recGet (([] : Obj)) "text" = none
    ∧ bubbleUpInputsIfNeeded { board := none, requestInput := none }
        (singlePropertySchemaInputs "text" (NodeValue.obj []) true) none =
      Except.ok none := by
  exact ⟨rfl, rfl, rfl⟩

/-- C2 amended: only when the environment exposes an interactive input
resolver does a missing input become a run-level error: a missing required
input is then promoted to an error naming it (without consulting the
resolver), and a missing non-required input whose resolver refuses and whose
schema has no default is likewise an error naming it; with no resolver the
check is skipped entirely and the visit's outputs pass through unchanged. -/
theorem bubble_missing_input_amended (ctx : NodeHandlerContext)
    (f : String → NodeValue → Option NodeValue) (name : String)
    (property : NodeValue) (prior : Option Obj)
    (hctx : ctx.requestInput = some f)
    (hmiss : recGet (prior.getD []) name = none) :
    bubbleUpInputsIfNeeded ctx
        (singlePropertySchemaInputs name property true) prior =
      Except.error (createErrorMessage name ctx true)
    ∧ (f name property = none → schemaDefault property = none →
        bubbleUpInputsIfNeeded ctx
            (singlePropertySchemaInputs name property false) prior =
          Except.error (createErrorMessage name ctx false))
    ∧ (∀ ctx2 : NodeHandlerContext, ctx2.requestInput = none →
        ∀ (inputs : Obj) (op : Option Obj),
          bubbleUpInputsIfNeeded ctx2 inputs op = Except.ok op) := by
  refine ⟨?_, ?_, ?_⟩
  · unfold bubbleUpInputsIfNeeded
    rw [hctx]
    rw [read_single_missing (prior.getD []) name property true
      (createBubbleHandler ctx) hmiss]
    simp [createBubbleHandler, Except.bind, Except.map]
  · intro hf hd
    unfold bubbleUpInputsIfNeeded
    rw [hctx]
    rw [read_single_missing (prior.getD []) name property false
      (createBubbleHandler ctx) hmiss]
    simp [createBubbleHandler, hctx, hf, hd, Except.bind, Except.map]
  · intro ctx2 h2 inputs op
    unfold bubbleUpInputsIfNeeded
    rw [h2]

/-- C2 witness: with a resolver present (one that always refuses) and the
required input `text` missing, bubbling rejects with the error naming
`text`. -/
theorem bubble_missing_input_amended_witness :
    ({ board := none,
       requestInput := some (fun _ _ => none) } : NodeHandlerContext).requestInput
      = some (fun _ _ => none)
    ∧ bubbleUpInputsIfNeeded
        { board := none, requestInput := some (fun _ _ => none) }
        (singlePropertySchemaInputs "text" (NodeValue.obj []) true) none =
      Except.error (createErrorMessage "text"
        { board := none, requestInput := some (fun _ _ => none) } true) := by
  refine ⟨rfl, ?_⟩
  exact (bubble_missing_input_amended
    { board := none, requestInput := some (fun _ _ => none) }
    (fun _ _ => none) "text" (NodeValue.obj []) none rfl rfl).1

end Breadboard
